import Mathlib

/-!
Verification of the color-mix program (`src/main.rs`).

The program generates sets of random RGB colors, computes three aggregate
colors over each set (`rgb_avg`, `less_mix`, `hsl_geo`), and renders the
results as CSS and HTML text.

Embedding conventions:
* The `css_colors` crate types are modelled as follows: `Ratio` (a u8-backed
  channel value) is `Fin 256`; `Angle` (whole degrees) is `Nat`.
* Machine integers (`u64` sums, `usize` lengths) are `Nat`; the guarded
  `as u8` casts are `% 256` (the guard makes them lossless, which we prove).
* Exact `f32` arithmetic of the conversion formulas is modelled over `ℚ`;
  `f32::round` (round half away from zero) is `roundQ`; float-to-integer
  casts saturate, modelled with `min _ 255` / `Int.toNat`.
* The transcendental `f32` functions (`cos`, `sin`, `atan2`) are
  implementation-defined in Rust (libm); they are modelled by a `TrigOracle`
  parameter constrained only by the mathematical range of
  `atan2(y, x).to_degrees() as i16` (the angle of a vector lies in
  [-π, π], hence the truncated degree value lies in [-181, 181]).
-/

/-- Rounding half away from zero, as `f32::round` does.  Every value this
development rounds is nonnegative, but the definition covers both signs. -/
def roundQ (q : ℚ) : ℤ :=
  if q < 0 then -(Int.floor (-q + 1/2)) else Int.floor (q + 1/2)

/-- Modelled from the spec: `css_colors::Ratio::from_f32` (the crate is a
dependency, not in `src/`): a fraction in [0,1] is stored as a u8 by
multiplying by 255 and rounding; the float-to-u8 cast saturates. -/
def from_f32 (q : ℚ) : Fin 256 :=
  ⟨min (roundQ (q * 255)).toNat 255, by omega⟩

/-- An RGB color: three 8-bit channels (`css_colors::RGB`, whose `Ratio`
fields are u8-backed). -/
structure RGB where
  r : Fin 256
  g : Fin 256
  b : Fin 256
deriving DecidableEq, Repr

/-- An HSL color (`css_colors::HSL`): hue in whole degrees, saturation and
lightness as u8-backed ratios. -/
structure HSL where
  h : Nat
  s : Fin 256
  l : Fin 256
deriving DecidableEq, Repr

/-- Auxiliary for the hue sector formula: the `mod 6` wrap of the
(possibly negative) normalized hue coordinate. -/
def qmod6 (x : ℚ) : ℚ :=
  if x < 0 then x + 6 else x

/-- Modelled from the spec: `css_colors` RGB→HSL conversion ("conversion is
a pure, well-known formula"), producing hue in degrees 0–359 and
saturation/lightness quantized to u8 ratios. -/
def RGB.to_hsl (c : RGB) : HSL :=
  let r : ℚ := (c.r.val : ℚ) / 255
  let g : ℚ := (c.g.val : ℚ) / 255
  let b : ℚ := (c.b.val : ℚ) / 255
  let maxv : ℚ := max r (max g b)
  let minv : ℚ := min r (min g b)
  let l : ℚ := (maxv + minv) / 2
  let delta : ℚ := maxv - minv
  if delta = 0 then
    ⟨0, from_f32 0, from_f32 l⟩
  else
    let s : ℚ := delta / (1 - |2 * l - 1|)
    let h6 : ℚ :=
      if maxv = r then qmod6 ((g - b) / delta)
      else if maxv = g then (b - r) / delta + 2
      else (r - g) / delta + 4
    ⟨(roundQ (h6 * 60)).toNat % 360, from_f32 s, from_f32 l⟩

/-- Auxiliary for the HSL→RGB sector formula: `(h/60) mod 2` for
`h/60 ∈ [0, 6]`. -/
def qmod2 (x : ℚ) : ℚ :=
  if x < 2 then x else if x < 4 then x - 2 else x - 4

/-- Saturating conversion of a fraction in [0,1] back to a u8 channel
(`(v * 255.0).round() as u8`). -/
def toU8 (q : ℚ) : Fin 256 :=
  ⟨min (roundQ (q * 255)).toNat 255, by omega⟩

/-- Modelled from the spec: `css_colors` HSL→RGB conversion (the well-known
chroma/sector formula, inverse of `RGB.to_hsl`). -/
def HSL.to_rgb (x : HSL) : RGB :=
  let h : ℚ := (x.h : ℚ)
  let s : ℚ := (x.s.val : ℚ) / 255
  let l : ℚ := (x.l.val : ℚ) / 255
  let c : ℚ := (1 - |2 * l - 1|) * s
  let xv : ℚ := c * (1 - |qmod2 (h / 60) - 1|)
  let m : ℚ := l - c / 2
  let rgb1 : ℚ × ℚ × ℚ :=
    if h < 60 then (c, xv, 0)
    else if h < 120 then (xv, c, 0)
    else if h < 180 then (0, c, xv)
    else if h < 240 then (0, xv, c)
    else if h < 300 then (xv, 0, c)
    else (c, 0, xv)
  ⟨toU8 (rgb1.1 + m), toU8 (rgb1.2.1 + m), toU8 (rgb1.2.2 + m)⟩

/-- Modelled from the spec: `css_colors` `mix` ("Blend-mix: linear
interpolation between two colors by a weighting ratio"): each channel is
the rounded convex combination weighting the second color by `f/255`. -/
def RGB.mix (a c : RGB) (f : Fin 256) : RGB :=
  let t : ℚ := (f.val : ℚ) / 255
  ⟨toU8 (((1 - t) * a.r.val + t * c.r.val) / 255),
   toU8 (((1 - t) * a.g.val + t * c.g.val) / 255),
   toU8 (((1 - t) * a.b.val + t * c.b.val) / 255)⟩

/-- The error enumeration of `src/main.rs` (`enum ComputeError`). -/
inductive ComputeError where
  | EmptyInput
  | AverageOutOfRange
  | AngleOutOfRange
  | PercentageOutOfRange
  | Panic
deriving DecidableEq, Repr

/-- Linear per-channel mean (`fn rgb_avg` of `src/main.rs`): u64 channel
sums, integer division by the length, defensive range checks, and a
guarded `as u8` cast. -/
def rgb_avg (input : List RGB) : Except ComputeError RGB :=
  if input.length = 0 then .error .EmptyInput else
  let r_sum : Nat := (input.map fun c => c.r.val).sum
  let g_sum : Nat := (input.map fun c => c.g.val).sum
  let b_sum : Nat := (input.map fun c => c.b.val).sum
  let r_avg : Nat := r_sum / input.length
  let g_avg : Nat := g_sum / input.length
  let b_avg : Nat := b_sum / input.length
  if 255 < r_avg then .error .AverageOutOfRange else
  if 255 < g_avg then .error .AverageOutOfRange else
  if 255 < b_avg then .error .AverageOutOfRange else
  .ok ⟨⟨r_avg % 256, by omega⟩, ⟨g_avg % 256, by omega⟩, ⟨b_avg % 256, by omega⟩⟩

/-- Iterative blend-mix (`fn less_mix` of `src/main.rs`): ratio `1/N`,
defensive range check, then a fold of `mix` over the tail starting from
the first element. -/
def less_mix (input : List RGB) : Except ComputeError RGB :=
  match input with
  | [] => .error .EmptyInput
  | c0 :: rest =>
    let percent : ℚ := 1 / ((c0 :: rest).length : ℚ)
    if percent < 0 ∨ 1 < percent then .error .PercentageOutOfRange else
    let ratio : Fin 256 := from_f32 percent
    .ok (rest.foldl (fun acc c => RGB.mix acc c ratio) c0)

/-- The implementation-defined `f32` transcendental functions used by
`hsl_geo`, as an oracle: `cosDeg h` and `sinDeg h` model
`(h as f32).to_radians().cos()` / `.sin()` for a hue of `h` whole degrees,
and `atan2Deg y x` models `f32::atan2(y, x).to_degrees() as i16`.  The only
constraint is the mathematical range of the last: `atan2` lands in
[-π, π], so its truncated degree value lies in [-181, 181] (181, not 180,
absorbs the rounding of `to_degrees`). -/
structure TrigOracle where
  cosDeg : Nat → ℚ
  sinDeg : Nat → ℚ
  atan2Deg : ℚ → ℚ → ℤ
  atan2_range : ∀ y x, -181 ≤ atan2Deg y x ∧ atan2Deg y x ≤ 181

/-- The hue normalization loop of `hsl_geo`
(`while angle < 0 { angle += 360; }`). -/
def normalizeAngle (a : ℤ) : ℤ :=
  if a < 0 then normalizeAngle (a + 360) else a
termination_by (-a).toNat
decreasing_by simp_wf; omega

/-- The averaged hue vector x-coordinate of `hsl_geo`
(`x_sum / input.len()`). -/
def hslXavg (o : TrigOracle) (input : List RGB) : ℚ :=
  (input.map fun c => o.cosDeg c.to_hsl.h).sum / (input.length : ℚ)

/-- The averaged hue vector y-coordinate of `hsl_geo`
(`y_sum / input.len()`). -/
def hslYavg (o : TrigOracle) (input : List RGB) : ℚ :=
  (input.map fun c => o.sinDeg c.to_hsl.h).sum / (input.length : ℚ)

/-- The hue angle of `hsl_geo` after the normalization loop:
`atan2(y_avg, x_avg).to_degrees() as i16`, then repeated `+= 360` while
negative. -/
def hslGeoHue (o : TrigOracle) (input : List RGB) : ℤ :=
  normalizeAngle (o.atan2Deg (hslYavg o input) (hslXavg o input))

/-- HSL geometric mean (`fn hsl_geo` of `src/main.rs`): arithmetic mean of
saturation and lightness with defensive range checks, circular mean of hue
via the trig oracle, the angle range check (note the source accepts
`angle = 360`), and conversion back to RGB. -/
def hsl_geo (o : TrigOracle) (input : List RGB) : Except ComputeError RGB :=
  if input.length = 0 then .error .EmptyInput else
  let s_sum : Nat := (input.map fun c => c.to_hsl.s.val).sum
  let l_sum : Nat := (input.map fun c => c.to_hsl.l.val).sum
  let s_avg : Nat := s_sum / input.length
  let l_avg : Nat := l_sum / input.length
  if 255 < s_avg then .error .AverageOutOfRange else
  if 255 < l_avg then .error .AverageOutOfRange else
  let angle : ℤ := hslGeoHue o input
  if 360 < angle ∨ angle < 0 then .error .AngleOutOfRange else
  .ok (HSL.to_rgb ⟨angle.toNat, ⟨s_avg % 256, by omega⟩, ⟨l_avg % 256, by omega⟩⟩)

/-- Modelled from the spec: a concrete trig oracle recording the exact
values the C standard specifies for libm on the coordinate axes
(`atan2(±0, x>0) = 0`, `atan2(±0, x<0) = ±π`, `cos(0) = 1`, `sin(0) = 0`);
off-axis values, which are implementation-defined, are not used by any
concrete evaluation below and are filled with representative constants. -/
def stdTrig : TrigOracle where
  cosDeg h := if h = 0 then 1 else if h = 180 then -1 else 0
  sinDeg _ := 0
  atan2Deg y x := if y = 0 ∧ x < 0 then 180 else if y = 0 then 0 else 90
  atan2_range := by
    intro y x
    dsimp only
    constructor <;> split <;> try split
    all_goals omega

/-- A record of `src/main.rs` (`struct Record`): an identifier, the input
colors, and the three aggregate colors. -/
structure Record where
  id : String
  input : List RGB
  rgb_avg : RGB
  less_mix : RGB
  hsl_geo : RGB
deriving DecidableEq, Repr

/-- Modelled from the spec: `css_colors` CSS rendering of an RGB color
(`c.to_css()`), the `rgb(r, g, b)` functional notation. -/
def RGB.to_css (c : RGB) : String :=
  "rgb(" ++ toString c.r.val ++ ", " ++ toString c.g.val ++ ", "
    ++ toString c.b.val ++ ")"

/-- One CSS rule of `Record::to_css`: the `format!` template
`"SEL {\n    background-color: COLOR;\n}\n"` with the selector inlined. -/
def cssRule (sel : String) (color : String) : String :=
  sel ++ " \x7b\n    background-color: " ++ color ++ ";\n\x7d\n"

/-- Simple list-of-strings concatenation, modelling
`.collect::<String>()`. -/
def strConcat : List String → String
  | [] => ""
  | s :: rest => s ++ strConcat rest

/-- CSS rendering of a record (`Record::to_css`): one rule per input swatch
(selector `.record-ID .input-N`) and one per aggregate (selectors
`.record-ID .rgb-avg`, `.record-ID .less-mix`, `.record-ID .hsl-geo`). -/
def Record.to_css (rec : Record) : String :=
  strConcat (rec.input.enum.map fun nc =>
    cssRule (".record-" ++ rec.id ++ " .input-" ++ toString nc.1) nc.2.to_css)
  ++ cssRule (".record-" ++ rec.id ++ " .rgb-avg") rec.rgb_avg.to_css
  ++ cssRule (".record-" ++ rec.id ++ " .less-mix") rec.less_mix.to_css
  ++ cssRule (".record-" ++ rec.id ++ " .hsl-geo") rec.hsl_geo.to_css

/-- The CSS selectors emitted by `Record.to_css`, in order. -/
def cssSelectors (rec : Record) : List String :=
  ((List.range rec.input.length).map fun n =>
    ".record-" ++ rec.id ++ " .input-" ++ toString n)
  ++ [".record-" ++ rec.id ++ " .rgb-avg",
      ".record-" ++ rec.id ++ " .less-mix",
      ".record-" ++ rec.id ++ " .hsl-geo"]

/-- HTML rendering of a record (`Record::to_html`): one container `div`
with class `record record-ID`, child `div`s for the inputs and the three
outputs. -/
def Record.to_html (rec : Record) : String :=
  "<div class=\x27record record-" ++ rec.id ++ "\x27>\n    <div class=\x27inputs\x27>\n    "
  ++ strConcat (rec.input.enum.map fun nc =>
      "<div class=\x27input input-" ++ toString nc.1 ++ "\x27></div>\n")
  ++ "\n    </div>\n    <div class=\x27outputs\x27>\n        <div class=\x27output rgb-avg\x27></div>\n        <div class=\x27output less-mix\x27></div>\n        <div class=\x27output hsl-geo\x27></div>\n    </div>\n</div>\n"

/-- The `class` attribute values appearing in `Record.to_html`, in order. -/
def htmlClassAttrs (rec : Record) : List String :=
  ["record record-" ++ rec.id, "inputs"]
  ++ ((List.range rec.input.length).map fun n => "input input-" ++ toString n)
  ++ ["outputs", "output rgb-avg", "output less-mix", "output hsl-geo"]

/-- Splitting a character list at a separator (an executable model of
splitting a class attribute on spaces). -/
def splitChars (sep : Char) : List Char → List (List Char)
  | [] => [[]]
  | c :: rest =>
    match splitChars sep rest with
    | [] => if c = sep then [[], []] else [[c]]
    | cur :: done => if c = sep then [] :: cur :: done else (c :: cur) :: done

/-- The individual HTML class names of a record: each `class` attribute
split on spaces. -/
def htmlClassNames (rec : Record) : List String :=
  (htmlClassAttrs rec).flatMap fun a => (splitChars (Char.ofNat 32) a.data).map String.mk

/-- The fallback color of `main`: solid black `RGB(0, 0, 0)`. -/
def black : RGB := ⟨0, 0, 0⟩

/-- The per-call-site fallback of `main`:
`.unwrap_or_else(|e| { eprintln!(WARN ...); black })` — an error is
replaced by solid black (the log line has no observable effect on the
produced records). -/
def orBlack : Except ComputeError RGB → RGB
  | .ok c => c
  | .error _ => black

/-- Record construction in the closure of `main`: each aggregate is computed,
and any error is caught at the call site and replaced by black. -/
def mkRecord (o : TrigOracle) (ident : String) (input : List RGB) : Record :=
  { id := ident
    input := input
    rgb_avg := orBlack (rgb_avg input)
    less_mix := orBlack (less_mix input)
    hsl_geo := orBlack (hsl_geo o input) }

/-- The driving iterator (`fn create_iter`):
`(2..=max_len).flat_map(|l| iter::repeat(l).zip(0..rounds))` — zipping the
infinite repetition of `l` with `0..rounds` yields exactly the pairs
`(l, 0), …, (l, rounds-1)`. -/
def create_iter (max_len rounds : Nat) : List (Nat × Nat) :=
  (List.range' 2 (max_len - 1)).flatMap fun l =>
    (List.range rounds).map fun r => (l, r)

/-- The record identifier (`fn id`, renamed to avoid the Lean builtin):
`format!("{}-{}", input_len, round)`. -/
def recId (input_len round : Nat) : String :=
  toString input_len ++ "-" ++ toString round

/-- The record list built by `main`: one record per `create_iter 5 10`
pair, with the randomly generated inputs abstracted as a function `gen`
from (length, round) to the generated color list. -/
def records (o : TrigOracle) (gen : Nat → Nat → List RGB) : List Record :=
  (create_iter 5 10).map fun p => mkRecord o (recId p.1 p.2) (gen p.1 p.2)

/-- The value `rgb_avg` produces on a non-empty input, as proved by
`rgb_avg_char`: per-channel integer mean (the `% 256` mirrors the guarded
`as u8` cast and is shown lossless by `avg_channel_le`). -/
def avgRGB (input : List RGB) : RGB :=
  ⟨⟨(input.map fun c => c.r.val).sum / input.length % 256, by omega⟩,
   ⟨(input.map fun c => c.g.val).sum / input.length % 256, by omega⟩,
   ⟨(input.map fun c => c.b.val).sum / input.length % 256, by omega⟩⟩

/-- The HSL value `hsl_geo` converts back to RGB on a non-empty input, as
proved by `hsl_geo_char`. -/
def geoHSL (o : TrigOracle) (input : List RGB) : HSL :=
  ⟨(hslGeoHue o input).toNat,
   ⟨(input.map fun c => c.to_hsl.s.val).sum / input.length % 256, by omega⟩,
   ⟨(input.map fun c => c.to_hsl.l.val).sum / input.length % 256, by omega⟩⟩

lemma sum_map_le (input : List RGB) (f : RGB → Nat) (hf : ∀ c, f c ≤ 255) :
    (input.map f).sum ≤ 255 * input.length := by
  induction input with
  | nil => simp
  | cons c rest ih =>
    simp only [List.map_cons, List.sum_cons, List.length_cons]
    have := hf c
    omega

lemma avg_channel_le (input : List RGB) (f : RGB → Nat) (hf : ∀ c, f c ≤ 255)
    (h : input ≠ []) : (input.map f).sum / input.length ≤ 255 := by
  have hlen : 0 < input.length := List.length_pos.mpr h
  have hsum := sum_map_le input f hf
  have : (input.map f).sum / input.length < 256 := by
    rw [Nat.div_lt_iff_lt_mul hlen]
    omega
  omega

/-- On a non-empty input, all defensive checks of `rgb_avg` pass and the
result is the per-channel integer mean. -/
lemma rgb_avg_char (input : List RGB) (h : input ≠ []) :
    rgb_avg input = .ok (avgRGB input) := by
  have hlen : input.length ≠ 0 := by
    simpa [List.length_eq_zero] using h
  have hr := avg_channel_le input (fun c => c.r.val)
    (fun c => by show c.r.val ≤ 255; have := c.r.isLt; omega) h
  have hg := avg_channel_le input (fun c => c.g.val)
    (fun c => by show c.g.val ≤ 255; have := c.g.isLt; omega) h
  have hb := avg_channel_le input (fun c => c.b.val)
    (fun c => by show c.b.val ≤ 255; have := c.b.isLt; omega) h
  unfold rgb_avg avgRGB
  rw [if_neg hlen, if_neg (by omega), if_neg (by omega), if_neg (by omega)]

/-- On a non-empty input, the ratio check of `less_mix` passes and the
result is the fold of `mix` over the tail. -/
lemma less_mix_char (c0 : RGB) (rest : List RGB) :
    less_mix (c0 :: rest) =
      .ok (rest.foldl
        (fun acc c => RGB.mix acc c (from_f32 (1 / ((c0 :: rest).length : ℚ))))
        c0) := by
  have hpos : (0 : ℚ) < ((c0 :: rest).length : ℚ) := by
    exact_mod_cast List.length_pos.mpr (List.cons_ne_nil c0 rest)
  have h1 : (1 : ℚ) ≤ ((c0 :: rest).length : ℚ) := by
    have : 1 ≤ (c0 :: rest).length := by simp
    exact_mod_cast this
  have hcheck : ¬ (1 / ((c0 :: rest).length : ℚ) < 0 ∨
      1 < 1 / ((c0 :: rest).length : ℚ)) := by
    push_neg
    constructor
    · positivity
    · rw [div_le_one hpos]
      exact h1
  simp only [less_mix]
  rw [if_neg hcheck]

lemma normalizeAngle_of_nonneg (a : ℤ) (h : 0 ≤ a) : normalizeAngle a = a := by
  unfold normalizeAngle
  rw [if_neg (by omega)]

lemma normalizeAngle_nonneg (a : ℤ) : 0 ≤ normalizeAngle a := by
  induction a using normalizeAngle.induct with
  | case1 a ha ih =>
    rw [normalizeAngle, if_pos ha]
    exact ih
  | case2 a ha =>
    rw [normalizeAngle, if_neg ha]
    omega

lemma normalizeAngle_le (a : ℤ) (hlo : -360 ≤ a) (hhi : a ≤ 359) :
    normalizeAngle a ≤ 359 := by
  by_cases hneg : a < 0
  · rw [normalizeAngle, if_pos hneg,
      normalizeAngle_of_nonneg (a + 360) (by omega)]
    omega
  · rw [normalizeAngle_of_nonneg a (by omega)]
    omega

lemma hslGeoHue_nonneg (o : TrigOracle) (input : List RGB) :
    0 ≤ hslGeoHue o input :=
  normalizeAngle_nonneg _

lemma hslGeoHue_le (o : TrigOracle) (input : List RGB) :
    hslGeoHue o input ≤ 359 := by
  have h := o.atan2_range (hslYavg o input) (hslXavg o input)
  exact normalizeAngle_le _ (by omega) (by omega)

/-- On a non-empty input, all defensive checks of `hsl_geo` pass (the
saturation/lightness means are bounded, and the normalized hue lies in
range for any admissible trig oracle), and the result is `geoHSL`
converted back to RGB. -/
lemma hsl_geo_char (o : TrigOracle) (input : List RGB) (h : input ≠ []) :
    hsl_geo o input = .ok (geoHSL o input).to_rgb := by
  have hlen : input.length ≠ 0 := by
    simpa [List.length_eq_zero] using h
  have hs := avg_channel_le input (fun c => c.to_hsl.s.val)
    (fun c => by show c.to_hsl.s.val ≤ 255; have := c.to_hsl.s.isLt; omega) h
  have hl := avg_channel_le input (fun c => c.to_hsl.l.val)
    (fun c => by show c.to_hsl.l.val ≤ 255; have := c.to_hsl.l.isLt; omega) h
  have hhue0 := hslGeoHue_nonneg o input
  have hhue1 := hslGeoHue_le o input
  unfold hsl_geo geoHSL
  rw [if_neg hlen, if_neg (by omega), if_neg (by omega), if_neg (by omega)]

lemma roundQ_natCast (n : Nat) : roundQ (n : ℚ) = n := by
  unfold roundQ
  rw [if_neg (not_lt.mpr (by positivity)), Int.floor_eq_iff]
  constructor <;> push_cast <;> norm_num

lemma toU8_div255 (n : Nat) (h : n < 256) : toU8 ((n : ℚ) / 255) = ⟨n, h⟩ := by
  unfold toU8
  have harg : (n : ℚ) / 255 * 255 = (n : ℚ) := by
    rw [div_mul_cancel₀]
    norm_num
  apply Fin.ext
  simp only [harg, roundQ_natCast, Int.toNat_natCast]
  omega

/-- Mixing a color with itself gives it back, whatever the ratio: the
convex combination of equal channel values is that value. -/
lemma mix_self (c : RGB) (f : Fin 256) : RGB.mix c c f = c := by
  unfold RGB.mix
  have key : ∀ x : Fin 256, ∀ t : ℚ,
      toU8 (((1 - t) * x.val + t * x.val) / 255) = x := by
    intro x t
    have harg : ((1 - t) * x.val + t * x.val : ℚ) = (x.val : ℚ) := by ring
    rw [harg, toU8_div255 x.val x.isLt]
  cases c with
  | mk r g b => simp only [key]

lemma prefix_occurs {α : Type} {l1 l2 : List α} (h : l1 <+: l2) :
    l1 <:+: l2 := by
  obtain ⟨t, ht⟩ := h
  exact ⟨[], t, by simpa using ht⟩

lemma suffix_occurs {α : Type} {l1 l2 : List α} (h : l1 <:+ l2) :
    l1 <:+: l2 := by
  obtain ⟨t, ht⟩ := h
  exact ⟨t, [], by simpa using ht⟩

lemma strConcat_mem_occurs (s : String) (l : List String) (h : s ∈ l) :
    s.data <:+: (strConcat l).data := by
  induction l with
  | nil => simp at h
  | cons a rest ih =>
    rcases List.mem_cons.mp h with heq | hmem
    · subst heq
      rw [strConcat, String.data_append]
      exact ⟨[], (strConcat rest).data, by simp⟩
    · have h1 := ih hmem
      have h2 : (strConcat rest).data <:+: (strConcat (a :: rest)).data := by
        rw [strConcat, String.data_append]
        exact suffix_occurs (List.suffix_append a.data (strConcat rest).data)
      exact h1.trans h2

lemma to_css_ne_empty (rec : Record) : rec.to_css ≠ "" := by
  intro hEq
  have h := congrArg String.length hEq
  rw [Record.to_css, cssRule] at h
  simp only [String.length_append] at h
  have hlit : 0 < (";\n\x7d\n" : String).length := by decide
  have h0 : ("" : String).length = 0 := rfl
  rw [h0] at h
  omega

lemma to_html_ne_empty (rec : Record) : rec.to_html ≠ "" := by
  intro hEq
  have h := congrArg String.length hEq
  rw [Record.to_html] at h
  simp only [String.length_append] at h
  have hlit : 0 < ("<div class=\x27record record-" : String).length := by decide
  have h0 : ("" : String).length = 0 := rfl
  rw [h0] at h
  omega

/-- C1: for the empty input list, each of the three aggregate functions
(`rgb_avg`, `less_mix`, `hsl_geo`) returns the empty-input error
(`ComputeError.EmptyInput`) rather than raising a fault. -/
theorem claim_c1_empty_input :
    rgb_avg [] = .error .EmptyInput ∧
    less_mix [] = .error .EmptyInput ∧
    ∀ o : TrigOracle, hsl_geo o [] = .error .EmptyInput :=
  ⟨rfl, rfl, fun _ => rfl⟩

/-- C3: for every single-element input list `[c]`, `rgb_avg` returns
`Ok c`: the linear mean of a one-element set equals that element. -/
theorem claim_c3_rgb_avg_singleton (c : RGB) : rgb_avg [c] = .ok c := by
  rw [rgb_avg_char [c] (by simp)]
  have : avgRGB [c] = c := by
    cases c with
    | mk r g b =>
      unfold avgRGB
      simp only [List.map_cons, List.map_nil, List.sum_cons, List.sum_nil,
        List.length_cons, List.length_nil, RGB.mk.injEq]
      refine ⟨Fin.ext ?_, Fin.ext ?_, Fin.ext ?_⟩ <;>
        · simp only []
          have h1 := r.isLt
          have h2 := g.isLt
          have h3 := b.isLt
          omega
  rw [this]

/-- C4: for every single-element input list `[c]`, `less_mix` returns
`Ok c`: the iterative blend-mix of a one-element set equals that
element. -/
theorem claim_c4_less_mix_singleton (c : RGB) : less_mix [c] = .ok c := by
  rw [less_mix_char c []]
  rfl

/-- C6: for every non-empty input list, the defensive range-check error
branches are unreachable: `rgb_avg` never returns `AverageOutOfRange`
(each channel average of 8-bit values is at most 255), and `less_mix`
never returns `PercentageOutOfRange` (the ratio `1/N` for `N ≥ 1` always
lies in [0,1]). -/
theorem claim_c6_defensive_unreachable (input : List RGB) (h : input ≠ []) :
    rgb_avg input ≠ .error .AverageOutOfRange ∧
    less_mix input ≠ .error .PercentageOutOfRange := by
  constructor
  · rw [rgb_avg_char input h]
    simp
  · cases input with
    | nil => exact absurd rfl h
    | cons c0 rest =>
      rw [less_mix_char c0 rest]
      simp

/-- Witness for C6 at the concrete input `[black]`. -/
theorem claim_c6_defensive_unreachable_witness :
    rgb_avg [black] ≠ .error .AverageOutOfRange ∧
    less_mix [black] ≠ .error .PercentageOutOfRange :=
  claim_c6_defensive_unreachable [black] (by simp)

/-- C8: for every non-empty input list, the hue angle computed by
`hsl_geo` after the normalization loop lies in [0, 360), and consequently
`hsl_geo` never returns the `AngleOutOfRange` error. -/
theorem claim_c8_hue_range (o : TrigOracle) (input : List RGB)
    (h : input ≠ []) :
    0 ≤ hslGeoHue o input ∧ hslGeoHue o input < 360 ∧
    hsl_geo o input ≠ .error .AngleOutOfRange := by
  refine ⟨hslGeoHue_nonneg o input, ?_, ?_⟩
  · have := hslGeoHue_le o input
    omega
  · rw [hsl_geo_char o input h]
    simp

/-- Witness for C8 at the concrete oracle `stdTrig` and input `[black]`. -/
theorem claim_c8_hue_range_witness :
    0 ≤ hslGeoHue stdTrig [black] ∧ hslGeoHue stdTrig [black] < 360 ∧
    hsl_geo stdTrig [black] ≠ .error .AngleOutOfRange :=
  claim_c8_hue_range stdTrig [black] (by simp)

/-- C10: for every non-empty input list of `N` colors, each output channel
of `rgb_avg` equals the floor of the exact rational mean of that channel
(integer division of the channel sum by `N`, truncating, never rounding to
nearest). -/
theorem claim_c10_floor_mean (input : List RGB) (h : input ≠ []) :
    ∃ c : RGB, rgb_avg input = .ok c ∧
      c.r.val = (input.map fun x => x.r.val).sum / input.length ∧
      c.g.val = (input.map fun x => x.g.val).sum / input.length ∧
      c.b.val = (input.map fun x => x.b.val).sum / input.length := by
  have hr := avg_channel_le input (fun c => c.r.val)
    (fun c => by show c.r.val ≤ 255; have := c.r.isLt; omega) h
  have hg := avg_channel_le input (fun c => c.g.val)
    (fun c => by show c.g.val ≤ 255; have := c.g.isLt; omega) h
  have hb := avg_channel_le input (fun c => c.b.val)
    (fun c => by show c.b.val ≤ 255; have := c.b.isLt; omega) h
  refine ⟨avgRGB input, rgb_avg_char input h, ?_, ?_, ?_⟩
  · simp only [avgRGB]
    exact Nat.mod_eq_of_lt (Nat.lt_succ_of_le hr)
  · simp only [avgRGB]
    exact Nat.mod_eq_of_lt (Nat.lt_succ_of_le hg)
  · simp only [avgRGB]
    exact Nat.mod_eq_of_lt (Nat.lt_succ_of_le hb)

/-- Witness for C10: the mean of channel values 0 and 1 is 0 (floor, not
rounding to nearest). -/
theorem claim_c10_floor_mean_witness :
    ∃ c : RGB, rgb_avg [⟨0, 0, 0⟩, ⟨1, 1, 1⟩] = .ok c ∧ c.r.val = 0 := by
  obtain ⟨c, h1, h2, -, -⟩ :=
    claim_c10_floor_mean [⟨0, 0, 0⟩, ⟨1, 1, 1⟩] (by simp)
  refine ⟨c, h1, ?_⟩
  rw [h2]
  decide

/-- Evaluation of the RGB→HSL conversion at pure red: hue 0. -/
lemma to_hsl_eval_red : RGB.to_hsl ⟨255, 0, 0⟩ = ⟨0, 255, 128⟩ := by
  have e0 : ((0 : Fin 256) : ℕ) = 0 := rfl
  have e255 : ((255 : Fin 256) : ℕ) = 255 := rfl
  unfold RGB.to_hsl
  norm_num [e0, e255, max_def, min_def, qmod6, from_f32, roundQ,
    abs_of_nonneg, Fin.ext_iff]
  decide

/-- Evaluation of the RGB→HSL conversion at pure cyan: hue 180, the
antipode of red on the hue circle. -/
lemma to_hsl_eval_cyan : RGB.to_hsl ⟨0, 255, 255⟩ = ⟨180, 255, 128⟩ := by
  have e0 : ((0 : Fin 256) : ℕ) = 0 := rfl
  have e255 : ((255 : Fin 256) : ℕ) = 255 := rfl
  unfold RGB.to_hsl
  norm_num [e0, e255, max_def, min_def, qmod6, from_f32, roundQ,
    abs_of_nonneg, Fin.ext_iff]
  decide

/-- Evaluation of the RGB→HSL conversion at RGB(255, 100, 100): the
lightness 355/510 quantizes to 178 of 255 (the exact value 177.5 rounds
half away from zero). -/
lemma to_hsl_eval_c255 : RGB.to_hsl ⟨255, 100, 100⟩ = ⟨0, 255, 178⟩ := by
  have e100 : ((100 : Fin 256) : ℕ) = 100 := rfl
  have e255 : ((255 : Fin 256) : ℕ) = 255 := rfl
  unfold RGB.to_hsl
  norm_num [e100, e255, max_def, min_def, qmod6, from_f32, roundQ,
    abs_of_nonneg, Fin.ext_iff]
  decide

/-- Evaluation of the HSL→RGB conversion at hue 0, saturation 255,
lightness 178: the result RGB(255, 101, 101) differs from the color
RGB(255, 100, 100) whose quantized HSL this is. -/
lemma to_rgb_eval_c255 : HSL.to_rgb ⟨0, 255, 178⟩ = ⟨255, 101, 101⟩ := by
  have e178 : ((178 : Fin 256) : ℕ) = 178 := rfl
  have e255 : ((255 : Fin 256) : ℕ) = 255 := rfl
  unfold HSL.to_rgb
  norm_num [e178, e255, qmod2, toU8, roundQ, abs_of_nonneg, Fin.ext_iff]
  decide

/-- C9: for a two-element input whose hues are 0 degrees (pure red) and
180 degrees (pure cyan) — an averaged hue vector of (near-)zero length —
`hsl_geo` does not fault: for every admissible trig oracle (hence for
whatever fixed value `atan2` yields on the (near-)zero vector) it returns
an `Ok` color, deterministically, the computation being a total
function of its input. -/
theorem claim_c9_opposite_hues (o : TrigOracle) :
    (RGB.to_hsl ⟨255, 0, 0⟩).h = 0 ∧
    (RGB.to_hsl ⟨0, 255, 255⟩).h = 180 ∧
    ∃ c : RGB, hsl_geo o [⟨255, 0, 0⟩, ⟨0, 255, 255⟩] = .ok c := by
  refine ⟨?_, ?_, ⟨_, hsl_geo_char o _ (by simp)⟩⟩
  · rw [to_hsl_eval_red]
  · rw [to_hsl_eval_cyan]

lemma avgRGB_pair (c : RGB) : avgRGB [c, c] = c := by
  cases c with
  | mk r g b =>
    unfold avgRGB
    simp only [List.map_cons, List.map_nil, List.sum_cons, List.sum_nil,
      List.length_cons, List.length_nil, RGB.mk.injEq]
    refine ⟨Fin.ext ?_, Fin.ext ?_, Fin.ext ?_⟩ <;>
      · simp only []
        have h1 := r.isLt
        have h2 := g.isLt
        have h3 := b.isLt
        omega

lemma hslXavg_pair (o : TrigOracle) (c : RGB) :
    hslXavg o [c, c] = hslXavg o [c] := by
  unfold hslXavg
  simp only [List.map_cons, List.map_nil, List.sum_cons, List.sum_nil,
    List.length_cons, List.length_nil]
  push_cast
  ring_nf

lemma hslYavg_pair (o : TrigOracle) (c : RGB) :
    hslYavg o [c, c] = hslYavg o [c] := by
  unfold hslYavg
  simp only [List.map_cons, List.map_nil, List.sum_cons, List.sum_nil,
    List.length_cons, List.length_nil]
  push_cast
  ring_nf

lemma geoHSL_pair (o : TrigOracle) (c : RGB) :
    geoHSL o [c, c] = geoHSL o [c] := by
  unfold geoHSL hslGeoHue
  rw [hslXavg_pair, hslYavg_pair]
  simp only [HSL.mk.injEq, List.map_cons, List.map_nil, List.sum_cons,
    List.sum_nil, List.length_cons, List.length_nil]
  refine ⟨by trivial, Fin.ext ?_, Fin.ext ?_⟩ <;>
    · simp only []
      omega

/-- C5 (amended): for every two-element input list `[c, c]` whose colors
are identical, `rgb_avg` and `less_mix` return exactly `c`, and `hsl_geo`
behaves exactly as on the singleton `[c]` — i.e. it returns the
HSL-quantized round-trip of `c`, which need not equal `c` itself (see the
counterexample at RGB(255, 100, 100)). -/
theorem claim_c5_pair_identical_amended (c : RGB) (o : TrigOracle) :
    rgb_avg [c, c] = .ok c ∧ less_mix [c, c] = .ok c ∧
    hsl_geo o [c, c] = hsl_geo o [c] := by
  refine ⟨?_, ?_, ?_⟩
  · rw [rgb_avg_char [c, c] (by simp), avgRGB_pair]
  · rw [less_mix_char c [c]]
    simp only [List.foldl_cons, List.foldl_nil]
    rw [mix_self]
  · rw [hsl_geo_char o [c, c] (by simp), hsl_geo_char o [c] (by simp),
      geoHSL_pair]

/-- Counterexample to C5 as stated: for the identical pair of
RGB(255, 100, 100), `hsl_geo` under the concrete oracle `stdTrig` (whose
values on this input are the libm-specified axis values `cos 0 = 1`,
`sin 0 = 0`, `atan2(0, x>0) = 0`) returns RGB(255, 101, 101), not the
input color: the u8/degree quantization of the HSL round-trip loses
exactness. -/
theorem claim_c5_pair_identical_cex :
    hsl_geo stdTrig [⟨255, 100, 100⟩, ⟨255, 100, 100⟩] =
      .ok ⟨255, 101, 101⟩ ∧
    (⟨255, 101, 101⟩ : RGB) ≠ ⟨255, 100, 100⟩ := by
  constructor
  · rw [hsl_geo_char stdTrig _ (by simp)]
    have hgeo : geoHSL stdTrig [⟨255, 100, 100⟩, ⟨255, 100, 100⟩] =
        ⟨0, 255, 178⟩ := by
      unfold geoHSL hslGeoHue hslXavg hslYavg
      simp only [List.map_cons, List.map_nil, List.sum_cons, List.sum_nil,
        List.length_cons, List.length_nil, to_hsl_eval_c255]
      have hx : (stdTrig.cosDeg 0 + (stdTrig.cosDeg 0 + 0)) /
          (((0 + 1 + 1 : ℕ)) : ℚ) = 1 := by
        show ((1 : ℚ) + (1 + 0)) / (((0 + 1 + 1 : ℕ)) : ℚ) = 1
        norm_num
      have hy : (stdTrig.sinDeg 0 + (stdTrig.sinDeg 0 + 0)) /
          (((0 + 1 + 1 : ℕ)) : ℚ) = 0 := by
        show ((0 : ℚ) + (0 + 0)) / (((0 + 1 + 1 : ℕ)) : ℚ) = 0
        norm_num
      rw [hx, hy]
      have hat : stdTrig.atan2Deg 0 1 = 0 := by
        show (if (0 : ℚ) = 0 ∧ (1 : ℚ) < 0 then (180 : ℤ)
          else if (0 : ℚ) = 0 then 0 else 90) = 0
        norm_num
      rw [hat, normalizeAngle_of_nonneg 0 le_rfl]
      simp only [HSL.mk.injEq]
      refine ⟨rfl, Fin.ext ?_, Fin.ext ?_⟩ <;> decide
    rw [hgeo, to_rgb_eval_c255]
  · decide

/-- C2: in the driver, for every generated input set (abstracted as the
generator function `gen`), whenever an aggregate computation returns an
error, the corresponding field of the constructed `Record` is the fixed
fallback color solid black RGB(0,0,0); and record construction and
rendering still proceed for every generated record (each pair of
`create_iter 5 10` yields a record in the output list with non-empty CSS
and HTML renderings). -/
theorem claim_c2_error_fallback (o : TrigOracle) (gen : Nat → Nat → List RGB) :
    (records o gen).length = 40 ∧
    ∀ len round, (len, round) ∈ create_iter 5 10 →
      mkRecord o (recId len round) (gen len round) ∈ records o gen ∧
      (∀ e, rgb_avg (gen len round) = .error e →
        (mkRecord o (recId len round) (gen len round)).rgb_avg = black) ∧
      (∀ e, less_mix (gen len round) = .error e →
        (mkRecord o (recId len round) (gen len round)).less_mix = black) ∧
      (∀ e, hsl_geo o (gen len round) = .error e →
        (mkRecord o (recId len round) (gen len round)).hsl_geo = black) ∧
      (mkRecord o (recId len round) (gen len round)).to_css ≠ "" ∧
      (mkRecord o (recId len round) (gen len round)).to_html ≠ "" := by
  constructor
  · rfl
  · intro len round hmem
    refine ⟨List.mem_map.mpr ⟨(len, round), hmem, rfl⟩, ?_, ?_, ?_,
      to_css_ne_empty _, to_html_ne_empty _⟩ <;>
      · intro e he
        simp [mkRecord, orBlack, he]

/-- Witness for C2: with the generator producing empty input lists, the
pair (2,0) is generated, its `rgb_avg` errors (empty input), and the
record field falls back to black; 40 records are produced. -/
theorem claim_c2_error_fallback_witness :
    (records stdTrig fun _ _ => []).length = 40 ∧
    (mkRecord stdTrig (recId 2 0) []).rgb_avg = black := by
  obtain ⟨h40, hrest⟩ := claim_c2_error_fallback stdTrig fun _ _ => []
  obtain ⟨-, hr, -, -, -, -⟩ := hrest 2 0 (by decide)
  exact ⟨h40, hr .EmptyInput rfl⟩

lemma dataOccursLeft (s t : String) : s.data <:+: (s ++ t).data := by
  rw [String.data_append]
  exact prefix_occurs (List.prefix_append s.data t.data)

lemma dataOccursRight (s t : String) : t.data <:+: (s ++ t).data := by
  rw [String.data_append]
  exact suffix_occurs (List.suffix_append s.data t.data)

lemma id_occurs_record_sel (ident tail : String) :
    ident.data <:+: (".record-" ++ ident ++ tail).data := by
  refine ⟨(".record-" : String).data, tail.data, ?_⟩
  simp [String.data_append]

/-- Each CSS selector of a record occurs verbatim in its CSS rendering. -/
lemma cssSelectors_occur (rec : Record) (sel : String)
    (hsel : sel ∈ cssSelectors rec) : sel.data <:+: rec.to_css.data := by
  have hstep : ∀ s c : String, s.data <:+: (cssRule s c).data := by
    intro s c
    rw [cssRule]
    exact ((dataOccursLeft s _).trans (dataOccursLeft _ c)).trans
      (dataOccursLeft _ _)
  rw [Record.to_css]
  rcases List.mem_append.mp hsel with hin | htail
  · obtain ⟨n, hn, rfl⟩ := List.mem_map.mp hin
    have hlt : n < rec.input.length := List.mem_range.mp hn
    have hmem2 : cssRule (".record-" ++ rec.id ++ " .input-" ++ toString n)
        (rec.input[n].to_css) ∈ rec.input.enum.map (fun nc =>
          cssRule (".record-" ++ rec.id ++ " .input-" ++ toString nc.1)
            nc.2.to_css) := by
      refine List.mem_map.mpr ⟨(n, rec.input[n]), ?_, rfl⟩
      rw [List.mem_enum_iff_getElem?]
      simp [List.getElem?_eq_getElem hlt]
    have h1 := (hstep _ (rec.input[n].to_css)).trans
      (strConcat_mem_occurs _ _ hmem2)
    exact h1.trans (((dataOccursLeft _ _).trans
      (dataOccursLeft _ _)).trans (dataOccursLeft _ _))
  · simp only [List.mem_cons, List.not_mem_nil, or_false] at htail
    rcases htail with h | h | h
    · subst h
      exact (hstep _ _).trans (((dataOccursRight _ _).trans
        (dataOccursLeft _ _)).trans (dataOccursLeft _ _))
    · subst h
      exact (hstep _ _).trans ((dataOccursRight _ _).trans
        (dataOccursLeft _ _))
    · subst h
      exact (hstep _ _).trans (dataOccursRight _ _)

/-- Each CSS selector of a record contains the identifier of the record (the
selectors all start with `.record-ID`). -/
lemma cssSelectors_contain_id (rec : Record) (sel : String)
    (hsel : sel ∈ cssSelectors rec) : rec.id.data <:+: sel.data := by
  rw [cssSelectors] at hsel
  rcases List.mem_append.mp hsel with hin | htail
  · obtain ⟨n, hn, rfl⟩ := List.mem_map.mp hin
    refine ⟨(".record-" : String).data,
      (" .input-" : String).data ++ (toString n).data, ?_⟩
    simp [String.data_append]
  · simp only [List.mem_cons, List.not_mem_nil, or_false] at htail
    rcases htail with h | h | h
    · subst h
      refine ⟨(".record-" : String).data, (" .rgb-avg" : String).data, ?_⟩
      simp [String.data_append]
    · subst h
      refine ⟨(".record-" : String).data, (" .less-mix" : String).data, ?_⟩
      simp [String.data_append]
    · subst h
      refine ⟨(".record-" : String).data, (" .hsl-geo" : String).data, ?_⟩
      simp [String.data_append]

/-- The `record record-ID` class attribute occurs verbatim in the HTML
rendering of a record. -/
lemma html_attr_occurs (rec : Record) :
    ("record record-" ++ rec.id).data <:+: rec.to_html.data := by
  rw [Record.to_html]
  have hsplit : ("<div class=\x27record record-" : String).data =
      ("<div class=\x27" : String).data ++ ("record record-" : String).data := by
    decide
  have h1 : ("record record-" ++ rec.id).data <:+:
      ("<div class=\x27record record-" ++ rec.id : String).data := by
    rw [String.data_append, String.data_append, hsplit, List.append_assoc]
    exact suffix_occurs (List.suffix_append _ _)
  exact h1.trans (((dataOccursLeft _ _).trans
    (dataOccursLeft _ _)).trans (dataOccursLeft _ _))

/-- C7 (amended): running the driver for set sizes 2 through 5 and 10
rounds per size produces exactly 40 (size, round) pairs, hence 40 records;
the CSS and HTML renderings of each record are non-empty; every CSS selector
occurs in the CSS output and contains the identifier of the record; and the
HTML container class attribute `record record-ID` occurs in the HTML
output and contains the identifier.  (The stronger statement of the claim —
that EVERY HTML class name contains the identifier — is false: the child
class names `inputs`, `input-N`, `outputs`, … do not contain it; see the
counterexample.) -/
theorem claim_c7_end_to_end_amended :
    (create_iter 5 10).length = 40 ∧
    ∀ rec : Record,
      rec.to_css ≠ "" ∧ rec.to_html ≠ "" ∧
      (∀ sel ∈ cssSelectors rec,
        sel.data <:+: rec.to_css.data ∧ rec.id.data <:+: sel.data) ∧
      ("record record-" ++ rec.id) ∈ htmlClassAttrs rec ∧
      rec.id.data <:+: ("record record-" ++ rec.id).data ∧
      ("record record-" ++ rec.id).data <:+: rec.to_html.data := by
  refine ⟨by rfl, fun rec => ⟨to_css_ne_empty rec, to_html_ne_empty rec,
    ?_, ?_, dataOccursRight _ _, html_attr_occurs rec⟩⟩
  · intro sel hsel
    exact ⟨cssSelectors_occur rec sel hsel, cssSelectors_contain_id rec sel hsel⟩
  · rw [htmlClassAttrs]
    exact List.mem_cons_self _ _

/-- Witness for C7 (amended) at a concrete record of the pipeline: the
`.rgb-avg` selector of the record for pair (2,0) occurs in its CSS and
contains the identifier `2-0`. -/
theorem claim_c7_end_to_end_amended_witness :
    ((".record-" ++ recId 2 0 ++ " .rgb-avg" : String).data <:+:
      (mkRecord stdTrig (recId 2 0) []).to_css.data) ∧
    ((mkRecord stdTrig (recId 2 0) []).id.data <:+:
      (".record-" ++ recId 2 0 ++ " .rgb-avg" : String).data) := by
  have hm : (".record-" ++ recId 2 0 ++ " .rgb-avg" : String) ∈
      cssSelectors (mkRecord stdTrig (recId 2 0) []) := by decide
  exact (claim_c7_end_to_end_amended.2
    (mkRecord stdTrig (recId 2 0) [])).2.2.1 _ hm

/-- Counterexample to C7 as stated: the record for pair (2,0) with two
black inputs has `inputs` among its HTML class names, and `inputs` does
not contain the record identifier `2-0`. -/
theorem claim_c7_end_to_end_cex :
    "inputs" ∈ htmlClassNames (mkRecord stdTrig (recId 2 0) [black, black]) ∧
    ¬ ((mkRecord stdTrig (recId 2 0) [black, black]).id.data <:+:
        ("inputs" : String).data) := by
  constructor
  · decide
  · decide
